import Mathlib

/-!
Shallow embedding of the isophote fitting core of AutoProf, file
autoprofutils/Isophote_Fit.py, together with models of the numpy
primitives it uses.  Pixel data is embedded as functions into the real
numbers, flux sample rings as lists of reals, and the stochastic parts
(gaussian draws, shuffle orders) as explicit input streams.  Helper
functions from autoprofutils/SharedFunctions.py are not part of the
sources, so they are either taken as abstract parameters or modelled
from the spec, as indicated at each definition.
-/

namespace AutoProf

/-- Python float modulo on reals, x % y in numpy semantics. -/
noncomputable def npmod (x y : ℝ) : ℝ := x - y * ⌊x / y⌋

/-- numpy clip of a list with only an upper bound. -/
def np_clip_upper (l : List ℝ) (hi : ℝ) : List ℝ := l.map (fun x => min x hi)

/-- numpy two sided clip of a scalar. -/
def np_clip (x lo hi : ℝ) : ℝ := max lo (min x hi)

/-- Ascending sort of a list of reals, as numpy sort. -/
noncomputable def np_sort (l : List ℝ) : List ℝ := l.mergeSort (fun a b => a ≤ b)

/-- numpy quantile with the default linear interpolation mode. -/
noncomputable def np_quantile (l : List ℝ) (q : ℝ) : ℝ :=
  let s := np_sort l
  let h : ℝ := q * ((l.length : ℝ) - 1)
  let lo : ℕ := (⌊h⌋).toNat
  s.getD lo 0 + (h - (lo : ℝ)) * (s.getD (lo + 1) 0 - s.getD lo 0)

/-- numpy median: middle element of the sorted list, or the mean of the two
middle elements for even length. -/
noncomputable def np_median (l : List ℝ) : ℝ :=
  let s := np_sort l
  if l.length % 2 = 1 then s.getD (l.length / 2) 0
  else (s.getD (l.length / 2 - 1) 0 + s.getD (l.length / 2) 0) / 2

/-- numpy mean of a list of reals. -/
noncomputable def np_mean (l : List ℝ) : ℝ := l.sum / (l.length : ℝ)

/-- Coefficient number m of the discrete Fourier transform of a real list,
matching the numpy fft convention. -/
noncomputable def np_fft_coef (l : List ℝ) (m : ℕ) : ℂ :=
  ∑ k ∈ Finset.range l.length,
    (l.getD k 0 : ℂ) * Complex.exp (-(2 * Real.pi * Complex.I * (m : ℂ) * (k : ℂ)) / (l.length : ℂ))

/-- First index at which a list attains its minimum, as numpy argmin. -/
def np_argmin {α : Type} [LinearOrder α] (d : α) : List α → ℕ
  | [] => 0
  | [_] => 0
  | x :: y :: ys =>
    if (y :: ys).getD (np_argmin d (y :: ys)) d < x then np_argmin d (y :: ys) + 1 else 0

/-- Modelled from the spec: the function Angle_TwoAngles of
autoprofutils/SharedFunctions.py is not among the sources.  The spec
describes it as angle difference on a circle arithmetic, antisymmetric and
zero on equal angles; we model the signed circular difference of two
angles, mapped into the half open interval from minus pi to pi. -/
noncomputable def Angle_TwoAngles (a b : ℝ) : ℝ :=
  npmod (a - b + Real.pi) (2 * Real.pi) - Real.pi

/-- Root mean square of the elementwise difference of two lists, with the
fixed denominator 4 used by the error estimator. -/
noncomputable def rms4 (a b : List ℝ) : ℝ :=
  Real.sqrt ((((a.zip b).map (fun p => (p.1 - p.2) ^ 2)).sum) / 4)

/-- Assignment of a constant to a slice from the start of a list, as the
numpy statement that sets l sliced up to k to the value v. -/
def set_head_vals (l : List ℝ) (k : ℕ) (v : ℝ) : List ℝ :=
  l.mapIdx (fun j x => if j < k then v else x)

/-- Default of the ap_regularize_scale option, source default 1. -/
def regularize_scale_opt (o : Option ℝ) : ℝ := o.getD 1

/-- Default of the ap_scale option, the geometric growth rate, source
default 0.2. -/
def scale_opt (o : Option ℝ) : ℝ := o.getD 0.2

/-- Default of the ap_fit_limit option in the robust fitter, source
default 2. -/
def fit_limit_robust_opt (o : Option ℝ) : ℝ := o.getD 2

/-- Default of the ap_fit_limit option in the mean fitter, source
default 1. -/
def fit_limit_mean_opt (o : Option ℝ) : ℝ := o.getD 1

/-- Embeds the function FFT_Robust_loss of Isophote_Fit.py.  The sample
extraction helper iso_extract of SharedFunctions.py is not among the
sources, so it enters as the abstract parameter extract, already closed
over the image, the center and the mask; the flag masked records whether a
mask was supplied, which selects the clipping quantile as in the source. -/
noncomputable def FFT_Robust_loss (extract : ℝ → ℝ → ℝ → List ℝ) (masked : Bool)
    (R E PA : List ℝ) (i : ℕ) (noise reg_scale : ℝ) : ℝ :=
  let isovals := extract (R.getD i 0) (E.getD i 0) (PA.getD i 0)
  let coefs2 :=
    if masked then np_fft_coef (np_clip_upper isovals (np_quantile isovals 0.9)) 2
    else np_fft_coef (np_clip_upper isovals (np_quantile isovals 0.85)) 2
  let f2_loss := Complex.abs coefs2 /
    ((isovals.length : ℝ) * (max 0 (np_median isovals) + noise))
  let reg_loss :=
    (if i < R.length - 1 then
       |(E.getD i 0 - E.getD (i + 1) 0) / (1 - E.getD (i + 1) 0)| +
       |Angle_TwoAngles (2 * PA.getD i 0) (2 * PA.getD (i + 1) 0) / (2 * 0.2)|
     else 0) +
    (if 0 < i then
       |(E.getD i 0 - E.getD (i - 1) 0) / (1 - E.getD (i - 1) 0)| +
       |Angle_TwoAngles (2 * PA.getD i 0) (2 * PA.getD (i - 1) 0) / (2 * 0.2)|
     else 0)
  f2_loss * (1 + reg_loss * reg_scale)

/-- The robust loss as the spec words it in section 4.2 and claim C3: the
magnitude of the second Fourier coefficient of the samples clipped above
their 0.85 quantile (0.9 with a mask), divided by sample count times the
sum of the clamped median and the noise, times one plus the scaled
regularization; the regularization adds, for each existing neighbor, the
relative ellipticity difference and the circular distance of the doubled
position angles divided by the bandwidth 0.4. -/
noncomputable def spec_robust_loss (extract : ℝ → ℝ → ℝ → List ℝ) (masked : Bool)
    (R E PA : List ℝ) (i : ℕ) (noise reg_scale : ℝ) : ℝ :=
  let isovals := extract (R.getD i 0) (E.getD i 0) (PA.getD i 0)
  let clipped := np_clip_upper isovals (np_quantile isovals (if masked then 0.9 else 0.85))
  let f2_loss := Complex.abs (np_fft_coef clipped 2) /
    ((isovals.length : ℝ) * (max 0 (np_median isovals) + noise))
  let reg_loss :=
    (if i + 1 < R.length then
       |E.getD i 0 - E.getD (i + 1) 0| / (1 - E.getD (i + 1) 0) +
       |Angle_TwoAngles (2 * PA.getD i 0) (2 * PA.getD (i + 1) 0)| / 0.4
     else 0) +
    (if 1 ≤ i then
       |E.getD i 0 - E.getD (i - 1) 0| / (1 - E.getD (i - 1) 0) +
       |Angle_TwoAngles (2 * PA.getD i 0) (2 * PA.getD (i - 1) 0)| / 0.4
     else 0)
  f2_loss * (1 + reg_loss * reg_scale)

/-- Embeds the function FFT_mean_loss of Isophote_Fit.py.  Sample values
are embedded as optional reals, where none stands for a non finite float;
the loss takes values in the extended reals so that the non finite case can
return the infinity that np.inf denotes. -/
noncomputable def FFT_mean_loss (extract : ℝ → ℝ → ℝ → List (Option ℝ))
    (R E PA : List ℝ) (i : ℕ) (noise reg_scale : ℝ) : EReal :=
  let isovals := extract (R.getD i 0) (E.getD i 0) (PA.getD i 0)
  if isovals.all Option.isSome then
    let vals := isovals.reduceOption
    let f2_loss := Complex.abs (np_fft_coef vals 2) /
      ((vals.length : ℝ) * (max 0 (np_mean vals) + noise))
    let reg_loss :=
      (if i < R.length - 1 then
         |(E.getD i 0 - E.getD (i + 1) 0) / (1 - E.getD (i + 1) 0)| +
         |Angle_TwoAngles (2 * PA.getD i 0) (2 * PA.getD (i + 1) 0) / (2 * 0.3)|
       else 0) +
      (if 0 < i then
         |(E.getD i 0 - E.getD (i - 1) 0) / (1 - E.getD (i - 1) 0)| +
         |Angle_TwoAngles (2 * PA.getD i 0) (2 * PA.getD (i - 1) 0) / (2 * 0.3)|
       else 0)
    ((f2_loss * (1 + reg_loss * reg_scale) : ℝ) : EReal)
  else ⊤

/-- Embeds the function ellip_smooth of Isophote_Fit.py.  The sklearn
pipeline of polynomial features and Huber regression is external code and
enters as the abstract parameter huber, mapping the degree and the training
points to a fitted prediction function; the ellipticity transform pair from
SharedFunctions.py is likewise abstract. -/
noncomputable def ellip_smooth (huber : ℕ → List ℝ → List ℝ → ℝ → ℝ)
    (x_to_eps inv_x_to_eps : ℝ → ℝ) (deg : ℕ) (R E : List ℝ) : List ℝ :=
  let logR := R.map (Real.logb 10)
  let model := huber deg logR (E.map inv_x_to_eps)
  logR.map (fun x => x_to_eps (model x))

/-- Embeds the function pa_smooth of Isophote_Fit.py; the two robust
regressions are instances of the abstract parameter huber as in
ellip_smooth, trained on the cosine and the sine of the doubled angle
against the base ten logarithm of the radius. -/
noncomputable def pa_smooth (huber : ℕ → List ℝ → List ℝ → ℝ → ℝ) (deg : ℕ)
    (R PA : List ℝ) : List ℝ :=
  let logR := R.map (Real.logb 10)
  let model_c := huber deg logR (PA.map (fun a => Real.cos (2 * a)))
  let model_s := huber deg logR (PA.map (fun a => Real.sin (2 * a)))
  logR.map (fun x =>
    let pred_pa_s := np_clip (model_s x) (-1) 1
    let pred_pa_c := np_clip (model_c x) (-1) 1
    npmod (Real.arctan (pred_pa_s / pred_pa_c) + (if pred_pa_c < 0 then Real.pi else 0))
      (2 * Real.pi) / 2)

/-- The position angle reconstruction as the spec words it: the arctangent
of the ratio of the clipped predictions, plus pi times the indicator of a
negative cosine prediction, reduced modulo two pi, then halved. -/
noncomputable def spec_pa_reconstruct (s c : ℝ) : ℝ :=
  npmod (Real.arctan (s / c) + Real.pi * (if c < 0 then 1 else 0)) (2 * Real.pi) / 2

/-- Embeds the inner radius growth loop shared by Isophote_Fit_FFT_Robust
and Isophote_Fit_FFT_mean.  The central flux tendency of the extracted ring
at a given radius enters as the abstract function flux (the median or the
mean of the samples, per variant); bound is half the largest image
dimension, factor the geometric growth rate, and fuel bounds the number of
growth steps, needed because Lean functions are total; a separate
stability result shows the outcome is independent of fuel once fuel is
large enough. -/
noncomputable def grow_radii (flux : ℝ → ℝ) (stop_flux bound factor : ℝ) :
    ℕ → ℝ → List ℝ
  | 0, r => [r]
  | fuel + 1, r =>
    if r < bound ∧ ¬ flux r < stop_flux then
      r :: grow_radii flux stop_flux bound factor fuel (r * factor)
    else [r]

/-- Embeds the shrink loop that determines the sampling radii: up to five
attempts, the growth rate relaxed each time, each requiring at least 15
radii; the value none embeds the exception raise of the source. -/
noncomputable def init_radii (flux : ℝ → ℝ) (stop_flux bound scale r0 : ℝ) (fuel : ℕ) :
    ℕ → Option (List ℝ)
  | shrink =>
    if h : shrink < 5 then
      let sample_radii := grow_radii flux stop_flux bound (1 + scale / (1 + (shrink : ℝ))) fuel r0
      if sample_radii.length < 15 then init_radii flux stop_flux bound scale r0 fuel (shrink + 1)
      else some sample_radii
    else none
  termination_by shrink => 5 - shrink

/-- Mutable state of the fitting loop: the two parameter arrays and the
counter of consecutive steps without an accepted perturbation. -/
structure LoopState where
  ellip : List ℝ
  pa : List ℝ
  nochange : ℕ

/-- The perturbation standard deviations of the source. -/
def perturb_scale : ℝ × ℝ := (0.03, 0.06)

/-- The number of perturbed candidates per radius index. -/
def N_perturb : ℕ := 5

/-- Abstract source of randomness: a processing order of radius indices for
each outer iteration, and standard normal draws keyed by iteration, radius
index and perturbation number. -/
structure RandomStream where
  order : ℕ → List ℕ
  zE : ℕ → ℕ → ℕ → ℝ
  zP : ℕ → ℕ → ℕ → ℝ

/-- The regularization scale used inside the loop: zero for the first
iterations, the configured scale once count exceeds 4. -/
def loop_reg_scale (reg : ℝ) (count : ℕ) : ℝ := if 4 < count then reg else 0

/-- Embeds the candidate pool construction of the fitting loop: the current
arrays unchanged first, then N_perturb copies each modified at index i
according to count modulo 3; the gaussian draws enter as the abstract
standard normal streams zE and zP scaled by the perturbation standard
deviations, and the ellipticity transform pair of SharedFunctions.py is
abstract. -/
noncomputable def make_perturbations (x_to_eps inv_x_to_eps : ℝ → ℝ)
    (ellip pa : List ℝ) (i : ℕ) (count : ℕ) (zE zP : ℕ → ℝ) :
    List (List ℝ × List ℝ) :=
  (ellip, pa) ::
    (List.range N_perturb).map (fun n =>
      (if count % 3 = 0 ∨ count % 3 = 1 then
         ellip.set i (x_to_eps (inv_x_to_eps (ellip.getD i 0) + perturb_scale.1 * zE n))
       else ellip,
       if count % 3 = 1 ∨ count % 3 = 2 then
         pa.set i (npmod (pa.getD i 0 + perturb_scale.2 * zP n) Real.pi)
       else pa))

/-- One inner step of the fitting loop at radius index i: build the
candidate pool, evaluate every loss, select the first minimal loss with
argmin, then either commit the winning perturbation and reset the no
change counter, or keep the arrays and increment it.  Generic in the
ordered loss type so both the robust real valued variant and the mean
extended real valued variant instantiate it. -/
noncomputable def fit_step {L : Type} [LinearOrder L] (dflt : L)
    (lossFn : List ℝ → List ℝ → ℕ → L) (x_to_eps inv_x_to_eps : ℝ → ℝ)
    (count : ℕ) (zE zP : ℕ → ℝ) (s : LoopState) (i : ℕ) : LoopState :=
  let perturbations := make_perturbations x_to_eps inv_x_to_eps s.ellip s.pa i count zE zP
  let losses := perturbations.map (fun p => lossFn p.1 p.2 i)
  let best := np_argmin dflt losses
  if 0 < best then
    { ellip := (perturbations.getD best (s.ellip, s.pa)).1,
      pa := (perturbations.getD best (s.ellip, s.pa)).2,
      nochange := 0 }
  else
    { ellip := s.ellip, pa := s.pa, nochange := s.nochange + 1 }

/-- One outer iteration body: process every radius index in the shuffled
order supplied by the random stream. -/
noncomputable def fit_pass {L : Type} [LinearOrder L] (dflt : L)
    (lossFn : List ℝ → List ℝ → ℕ → L) (x_to_eps inv_x_to_eps : ℝ → ℝ)
    (count : ℕ) (rnd : RandomStream) (s : LoopState) : LoopState :=
  (rnd.order count).foldl
    (fun t i => fit_step dflt lossFn x_to_eps inv_x_to_eps count
      (rnd.zE count i) (rnd.zP count i) t i) s

/-- Embeds the outer fitting loop: repeat while count is below 300 and the
no change counter is below three times the radius count, incrementing
count at the top of each iteration; the loss receives the iteration count
so the regularization schedule of the source applies. -/
noncomputable def fit_loop {L : Type} [LinearOrder L] (dflt : L)
    (lossFn : ℕ → List ℝ → List ℝ → ℕ → L) (x_to_eps inv_x_to_eps : ℝ → ℝ)
    (rnd : RandomStream) (nR : ℕ) : ℕ → LoopState → ℕ × LoopState
  | count, s =>
    if count < 300 ∧ s.nochange < 3 * nR then
      fit_loop dflt lossFn x_to_eps inv_x_to_eps rnd nR (count + 1)
        (fit_pass dflt (lossFn (count + 1)) x_to_eps inv_x_to_eps (count + 1) rnd s)
    else (count, s)
  termination_by count => 300 - count

/-- Embeds the collapsed center detection: scan the first five radius
indices in order and flatten the leading entries of both arrays whenever
the transformed ellipticity drops by more than one half between
neighbors. -/
noncomputable def collapse_center (inv_x_to_eps : ℝ → ℝ) (ellip pa : List ℝ) :
    List ℝ × List ℝ :=
  (List.range 5).foldl (fun ep i =>
    if 0.5 < inv_x_to_eps (ep.1.getD i 0) - inv_x_to_eps (ep.1.getD (i + 1) 0) then
      (set_head_vals ep.1 (i + 1) (ep.1.getD (i + 1) 0),
       set_head_vals ep.2 (i + 1) (ep.2.getD (i + 1) 0))
    else ep) (ellip, pa)

/-- Embeds the statement clamping the first three ellipticity entries to
their shared minimum. -/
noncomputable def clamp3 (l : List ℝ) : List ℝ :=
  set_head_vals l 3 (min (min (l.getD 0 0) (l.getD 1 0)) (l.getD 2 0))

/-- Embeds the error estimation block: start from zeros, assign the first
two entries from the window of the first four points, the final entry from
the window of the last four points, then every interior index from its
centered half open window. -/
noncomputable def compute_errs (raw smooth : List ℝ) : List ℝ :=
  let n := raw.length
  let e0 := List.replicate n (0 : ℝ)
  let e1 := set_head_vals e0 2 (rms4 (raw.take 4) (smooth.take 4))
  let e2 := e1.set (n - 1) (rms4 (raw.drop (n - 4)) (smooth.drop (n - 4)))
  (List.range' 2 (n - 3)).foldl
    (fun acc i =>
      acc.set i (rms4 ((raw.drop (i - 2)).take 4) ((smooth.drop (i - 2)).take 4))) e2

/-- The per index error contract as claim C6 words it: the first two
indices use the window of the first four points, the final index the
window of the last four points, and an interior index i the half open
window from i minus 2 up to i plus 2. -/
noncomputable def spec_err (raw smooth : List ℝ) (i : ℕ) : ℝ :=
  if i ≤ 1 then rms4 (raw.take 4) (smooth.take 4)
  else if i = raw.length - 1 then
    rms4 (raw.drop (raw.length - 4)) (smooth.drop (raw.length - 4))
  else rms4 ((raw.drop (i - 2)).take 4) ((smooth.drop (i - 2)).take 4)

/-- The result bundle of either fitter: the fields of the res dictionary,
the fit limit entry modelled by the numeric radius it reports. -/
structure FitResult where
  fit_R : List ℝ
  fit_ellip : List ℝ
  fit_pa : List ℝ
  fit_ellip_err : List ℝ
  fit_pa_err : List ℝ
  auxfile_fitlimit : ℝ

/-- Embeds the post processing tail shared by both fitters: collapsed
center detection, smoothing of the collapsed arrays, the clamp of the
first three ellipticities, and error estimation; the two smoothed trends
are returned alongside since the error estimator consumes them. -/
noncomputable def fit_postprocess (huber : ℕ → List ℝ → List ℝ → ℝ → ℝ)
    (x_to_eps inv_x_to_eps : ℝ → ℝ) (sample_radii ellip pa : List ℝ) :
    FitResult × List ℝ × List ℝ :=
  let ep := collapse_center inv_x_to_eps ellip pa
  let smooth_ellip := ellip_smooth huber x_to_eps inv_x_to_eps 5 sample_radii ep.1
  let smooth_pa := pa_smooth huber 5 sample_radii ep.2
  let ellip2 := clamp3 ep.1
  ({ fit_R := sample_radii, fit_ellip := ellip2, fit_pa := ep.2,
     fit_ellip_err := compute_errs ellip2 smooth_ellip,
     fit_pa_err := compute_errs ep.2 smooth_pa,
     auxfile_fitlimit := sample_radii.getLast?.getD 0 }, smooth_ellip, smooth_pa)

/-- Embeds Isophote_Fit_FFT_Robust.  The image is a function from pixel
coordinates to flux together with explicit dimensions; iso_extract of
SharedFunctions.py enters as the abstract parameter extract, taking the
background subtracted data and the ring geometry; huber and the
ellipticity transforms are abstract as above, rnd carries the randomness
and fuel bounds radius growth.  Plotting is outside the spec scope and is
omitted. -/
noncomputable def Isophote_Fit_FFT_Robust (IMG : ℕ → ℕ → ℝ) (shape : ℕ × ℕ)
    (background noise psf_fwhm init_ellip init_pa : ℝ) (masked : Bool)
    (extract : (ℕ → ℕ → ℝ) → ℝ → ℝ → ℝ → List ℝ)
    (huber : ℕ → List ℝ → List ℝ → ℝ → ℝ) (x_to_eps inv_x_to_eps : ℝ → ℝ)
    (ap_scale ap_fit_limit ap_regularize_scale : Option ℝ)
    (rnd : RandomStream) (fuel : ℕ) :
    Except String ((ℕ → ℕ → ℝ) × FitResult) :=
  let scale := scale_opt ap_scale
  let dat : ℕ → ℕ → ℝ := fun x y => IMG x y - background
  let bound : ℝ := ((max shape.1 shape.2 : ℕ) : ℝ) / 2
  let stop_flux := fit_limit_robust_opt ap_fit_limit * noise
  match init_radii (fun r => np_median (extract dat r init_ellip init_pa))
      stop_flux bound scale (3 * psf_fwhm / 2) fuel 0 with
  | none =>
    .error "Unable to initialize ellipse fit, check diagnostic plots. Possible missed center."
  | some sample_radii =>
    let nR := sample_radii.length
    let regularize_scale := regularize_scale_opt ap_regularize_scale
    let lossFn := fun count E PA i =>
      FFT_Robust_loss (extract dat) masked sample_radii E PA i noise
        (loop_reg_scale regularize_scale count)
    let s0 : LoopState :=
      { ellip := List.replicate nR init_ellip, pa := List.replicate nR init_pa,
        nochange := 0 }
    let s1 := (fit_loop (0 : ℝ) lossFn x_to_eps inv_x_to_eps rnd nR 0 s0).2
    .ok (IMG, (fit_postprocess huber x_to_eps inv_x_to_eps sample_radii s1.ellip s1.pa).1)

/-- Embeds Isophote_Fit_FFT_mean, the mean normalized variant: identical
structure with the mean loss, the fit limit default of one, and sample
values as optional reals so non finite floats are expressible; the flux
tendency steering radius growth is the mean of the finite samples. -/
noncomputable def Isophote_Fit_FFT_mean (IMG : ℕ → ℕ → ℝ) (shape : ℕ × ℕ)
    (background noise psf_fwhm init_ellip init_pa : ℝ)
    (extract : (ℕ → ℕ → ℝ) → ℝ → ℝ → ℝ → List (Option ℝ))
    (huber : ℕ → List ℝ → List ℝ → ℝ → ℝ) (x_to_eps inv_x_to_eps : ℝ → ℝ)
    (ap_scale ap_fit_limit ap_regularize_scale : Option ℝ)
    (rnd : RandomStream) (fuel : ℕ) :
    Except String ((ℕ → ℕ → ℝ) × FitResult) :=
  let scale := scale_opt ap_scale
  let dat : ℕ → ℕ → ℝ := fun x y => IMG x y - background
  let bound : ℝ := ((max shape.1 shape.2 : ℕ) : ℝ) / 2
  let stop_flux := fit_limit_mean_opt ap_fit_limit * noise
  match init_radii (fun r => np_mean ((extract dat r init_ellip init_pa).reduceOption))
      stop_flux bound scale (3 * psf_fwhm / 2) fuel 0 with
  | none =>
    .error "Unable to initialize ellipse fit, check diagnostic plots. Possible missed center."
  | some sample_radii =>
    let nR := sample_radii.length
    let regularize_scale := regularize_scale_opt ap_regularize_scale
    let lossFn := fun count E PA i =>
      FFT_mean_loss (extract dat) sample_radii E PA i noise
        (loop_reg_scale regularize_scale count)
    let s0 : LoopState :=
      { ellip := List.replicate nR init_ellip, pa := List.replicate nR init_pa,
        nochange := 0 }
    let s1 := (fit_loop (⊤ : EReal) lossFn x_to_eps inv_x_to_eps rnd nR 0 s0).2
    .ok (IMG, (fit_postprocess huber x_to_eps inv_x_to_eps sample_radii s1.ellip s1.pa).1)

theorem np_argmin_lt_length {α : Type} [LinearOrder α] (d : α) (l : List α) (h : l ≠ []) :
    np_argmin d l < l.length := by
  induction l with
  | nil => exact absurd rfl h
  | cons x xs ih =>
    cases xs with
    | nil => simp [np_argmin]
    | cons y ys =>
      rw [np_argmin]
      split
      · have := ih (by simp)
        simpa using Nat.succ_lt_succ this
      · simp

theorem np_argmin_le {α : Type} [LinearOrder α] (d : α) (l : List α) :
    ∀ j, j < l.length → l.getD (np_argmin d l) d ≤ l.getD j d := by
  induction l with
  | nil => intro j hj; simp at hj
  | cons x xs ih =>
    cases xs with
    | nil =>
      intro j hj
      simp only [List.length_cons, List.length_nil, Nat.lt_succ_iff, Nat.le_zero] at hj
      subst hj
      simp [np_argmin]
    | cons y ys =>
      intro j hj
      rw [np_argmin]
      split
      · rename_i hlt
        rw [List.getD_cons_succ]
        cases j with
        | zero => rw [List.getD_cons_zero]; exact le_of_lt hlt
        | succ j =>
          rw [List.getD_cons_succ]
          exact ih j (by simpa using Nat.lt_of_succ_lt_succ hj)
      · rename_i hge
        push_neg at hge
        rw [List.getD_cons_zero]
        cases j with
        | zero => rw [List.getD_cons_zero]
        | succ j =>
          rw [List.getD_cons_succ]
          exact le_trans hge (ih j (by simpa using Nat.lt_of_succ_lt_succ hj))

theorem np_argmin_pos_iff {α : Type} [LinearOrder α] (d : α) (l : List α) :
    0 < np_argmin d l ↔ l.getD (np_argmin d l) d < l.getD 0 d := by
  cases l with
  | nil => simp [np_argmin]
  | cons x xs =>
    cases xs with
    | nil => simp [np_argmin]
    | cons y ys =>
      constructor
      · intro hpos
        rw [np_argmin] at hpos ⊢
        split at hpos
        · rename_i hlt
          simp only [if_pos hlt, List.getD_cons_succ, List.getD_cons_zero]
          exact hlt
        · simp at hpos
      · intro hlt
        by_contra hz
        have h0 : np_argmin d (x :: y :: ys) = 0 := Nat.eq_zero_of_not_pos hz
        rw [h0] at hlt
        exact lt_irrefl _ hlt

theorem set_head_vals_length (l : List ℝ) (k : ℕ) (v : ℝ) :
    (set_head_vals l k v).length = l.length := by
  simp [set_head_vals]

theorem set_head_vals_getD (l : List ℝ) (k : ℕ) (v : ℝ) (j : ℕ) (hj : j < l.length) :
    (set_head_vals l k v).getD j 0 = if j < k then v else l.getD j 0 := by
  simp only [set_head_vals, List.getD_eq_getElem?_getD, List.getElem?_mapIdx]
  rw [List.getElem?_eq_getElem hj]
  simp [List.getD_eq_getElem?_getD, List.getElem?_eq_getElem hj]

theorem getD_map_zero (f : ℝ → ℝ) (l : List ℝ) (i : ℕ) (h : i < l.length) :
    (l.map f).getD i 0 = f (l.getD i 0) := by
  simp only [List.getD_eq_getElem?_getD, List.getElem?_map]
  rw [List.getElem?_eq_getElem h]
  simp

theorem npmod_nonneg (x y : ℝ) (hy : 0 < y) : 0 ≤ npmod x y := by
  have h : npmod x y = y * Int.fract (x / y) := by
    unfold npmod Int.fract
    field_simp
  rw [h]
  exact mul_nonneg hy.le (Int.fract_nonneg _)

theorem npmod_lt (x y : ℝ) (hy : 0 < y) : npmod x y < y := by
  have h : npmod x y = y * Int.fract (x / y) := by
    unfold npmod Int.fract
    field_simp
  rw [h]
  calc y * Int.fract (x / y) < y * 1 := mul_lt_mul_of_pos_left (Int.fract_lt_one _) hy
    _ = y := mul_one y

theorem getD_eq_zero_of_le (l : List ℝ) (i : ℕ) (h : l.length ≤ i) :
    l.getD i 0 = 0 := by
  simp [List.getD_eq_getElem?_getD, List.getElem?_eq_none h]

theorem pa_val_bounds (s c : ℝ) :
    0 ≤ npmod (Real.arctan (s / c) + (if c < 0 then Real.pi else 0)) (2 * Real.pi) / 2 ∧
    npmod (Real.arctan (s / c) + (if c < 0 then Real.pi else 0)) (2 * Real.pi) / 2 < Real.pi := by
  have htwopi : (0 : ℝ) < 2 * Real.pi := by positivity
  constructor
  · exact div_nonneg (npmod_nonneg _ _ htwopi) (by norm_num)
  · have h := npmod_lt (Real.arctan (s / c) + (if c < 0 then Real.pi else 0)) _ htwopi
    linarith

theorem map_getD_bounds (g : ℝ → ℝ) (l : List ℝ)
    (h0 : ∀ x, 0 ≤ g x ∧ g x < Real.pi) (i : ℕ) :
    0 ≤ (l.map g).getD i 0 ∧ (l.map g).getD i 0 < Real.pi := by
  by_cases hi : i < l.length
  · rw [getD_map_zero g l i hi]
    exact h0 _
  · push_neg at hi
    rw [getD_eq_zero_of_le _ i (by simpa using hi)]
    exact ⟨le_refl 0, Real.pi_pos⟩

/-- C7: for every radius array and position angle array, the position angle
smoother regresses the cosine and the sine of the doubled angle against the
base ten logarithm of the radius with the degree five robust regressor,
clips each prediction to the interval from minus one to one and recombines
them with the arctangent formula of the spec at every index; moreover every
entry of the returned list lies in the half open interval from zero to
pi. -/
theorem C7_pa_smooth (huber : ℕ → List ℝ → List ℝ → ℝ → ℝ) (R PA : List ℝ) :
    (pa_smooth huber 5 R PA =
      (R.map (Real.logb 10)).map (fun x =>
        spec_pa_reconstruct
          (np_clip (huber 5 (R.map (Real.logb 10))
            (PA.map (fun a => Real.sin (2 * a))) x) (-1) 1)
          (np_clip (huber 5 (R.map (Real.logb 10))
            (PA.map (fun a => Real.cos (2 * a))) x) (-1) 1))) ∧
    ∀ i : ℕ, 0 ≤ (pa_smooth huber 5 R PA).getD i 0 ∧
      (pa_smooth huber 5 R PA).getD i 0 < Real.pi := by
  have htwopi : (0 : ℝ) < 2 * Real.pi := by positivity
  have hind : ∀ c : ℝ, (if c < 0 then Real.pi else 0) = Real.pi * (if c < 0 then 1 else 0) := by
    intro c; split <;> ring
  constructor
  · simp only [pa_smooth, spec_pa_reconstruct, hind]
  · intro i
    simp only [pa_smooth]
    apply map_getD_bounds
    intro x
    exact pa_val_bounds _ _

/-- C3: the robust Fourier loss equals the formula the spec states, with
the clipping quantile 0.85 without a mask and 0.9 with one, normalization
by sample count times the clamped median plus the noise, neighbor
regularization by the relative ellipticity difference and the circular
distance of doubled position angles over the bandwidth 0.4; and the loss is
non negative when the noise and the regularization scale are. -/
theorem C3_robust_loss (extract : ℝ → ℝ → ℝ → List ℝ) (masked : Bool)
    (R E PA : List ℝ) (i : ℕ) (noise reg_scale : ℝ)
    (hE : ∀ j : ℕ, E.getD j 0 < 1) (hnoise : 0 ≤ noise) (hreg : 0 ≤ reg_scale) :
    FFT_Robust_loss extract masked R E PA i noise reg_scale =
      spec_robust_loss extract masked R E PA i noise reg_scale ∧
    0 ≤ FFT_Robust_loss extract masked R E PA i noise reg_scale := by
  have habs : ∀ a b : ℝ, b < 1 → |(a - b) / (1 - b)| = |a - b| / (1 - b) := by
    intro a b hb
    rw [abs_div, abs_of_pos (show (0 : ℝ) < 1 - b by linarith)]
  have habs2 : ∀ x : ℝ, |x / (2 * 0.2)| = |x| / 0.4 := by
    intro x
    rw [abs_div, abs_of_pos (show (0 : ℝ) < 2 * 0.2 by norm_num)]
    norm_num
  have hcond1 : (i < R.length - 1) = (i + 1 < R.length) := by
    apply propext; omega
  have hcond2 : (0 < i) = (1 ≤ i) := by
    apply propext; omega
  constructor
  · simp only [FFT_Robust_loss, spec_robust_loss, hcond1, hcond2,
      habs _ _ (hE (i + 1)), habs _ _ (hE (i - 1)), habs2]
    cases masked <;> simp
  · simp only [FFT_Robust_loss]
    have hden : (0 : ℝ) ≤
        ((extract (R.getD i 0) (E.getD i 0) (PA.getD i 0)).length : ℝ) *
          (max 0 (np_median (extract (R.getD i 0) (E.getD i 0) (PA.getD i 0))) + noise) := by
      apply mul_nonneg (Nat.cast_nonneg _)
      exact add_nonneg (le_max_left _ _) hnoise
    have hf2 : (0 : ℝ) ≤ Complex.abs
        (if masked then
          np_fft_coef (np_clip_upper (extract (R.getD i 0) (E.getD i 0) (PA.getD i 0))
            (np_quantile (extract (R.getD i 0) (E.getD i 0) (PA.getD i 0)) 0.9)) 2
         else
          np_fft_coef (np_clip_upper (extract (R.getD i 0) (E.getD i 0) (PA.getD i 0))
            (np_quantile (extract (R.getD i 0) (E.getD i 0) (PA.getD i 0)) 0.85)) 2) /
        ((extract (R.getD i 0) (E.getD i 0) (PA.getD i 0)).length *
          (max 0 (np_median (extract (R.getD i 0) (E.getD i 0) (PA.getD i 0))) + noise)) :=
      div_nonneg (AbsoluteValue.nonneg _ _) hden
    have hr1 : (0 : ℝ) ≤
        (if i < R.length - 1 then
          |(E.getD i 0 - E.getD (i + 1) 0) / (1 - E.getD (i + 1) 0)| +
          |Angle_TwoAngles (2 * PA.getD i 0) (2 * PA.getD (i + 1) 0) / (2 * 0.2)|
         else 0) := by
      split
      · positivity
      · exact le_refl 0
    have hr2 : (0 : ℝ) ≤
        (if 0 < i then
          |(E.getD i 0 - E.getD (i - 1) 0) / (1 - E.getD (i - 1) 0)| +
          |Angle_TwoAngles (2 * PA.getD i 0) (2 * PA.getD (i - 1) 0) / (2 * 0.2)|
         else 0) := by
      split
      · positivity
      · exact le_refl 0
    apply mul_nonneg hf2
    have := mul_nonneg (add_nonneg hr1 hr2) hreg
    linarith

theorem getD_set (l : List ℝ) (i : ℕ) (v : ℝ) (j : ℕ) :
    (l.set i v).getD j 0 = if j = i ∧ j < l.length then v else l.getD j 0 := by
  by_cases h1 : j = i
  · subst h1
    by_cases h2 : j < l.length
    · simp only [h2, and_true, if_pos rfl]
      simp [List.getD_eq_getElem?_getD, List.getElem?_set_self, h2]
    · simp only [h2, and_false, if_false]
      push_neg at h2
      rw [getD_eq_zero_of_le _ _ (by simpa using h2), getD_eq_zero_of_le _ _ h2]
  · simp only [h1, false_and, if_false]
    simp [List.getD_eq_getElem?_getD, List.getElem?_set_ne (Ne.symm h1)]

theorem foldl_set_length (v : ℕ → ℝ) (L : List ℕ) (base : List ℝ) :
    (L.foldl (fun acc i => acc.set i (v i)) base).length = base.length := by
  induction L generalizing base with
  | nil => rfl
  | cons a t ih =>
    rw [List.foldl_cons, ih]
    simp

theorem foldl_set_getD (v : ℕ → ℝ) (L : List ℕ) (base : List ℝ) (j : ℕ)
    (hj : j < base.length) :
    (L.foldl (fun acc i => acc.set i (v i)) base).getD j 0 =
      if j ∈ L then v j else base.getD j 0 := by
  induction L generalizing base with
  | nil => simp
  | cons a t ih =>
    rw [List.foldl_cons, ih _ (by simpa using hj)]
    by_cases hjt : j ∈ t
    · simp [hjt, List.mem_cons]
    · simp only [hjt, if_false]
      rw [getD_set]
      by_cases hja : j = a
      · subst hja
        simp [hj, List.mem_cons]
      · simp [hja, hjt, List.mem_cons]

/-- C6: for raw and smoothed arrays of length at least 4, the error array
matches the window contract: indices 0 and 1 use the root mean square of
the first four deviations, the final index uses the last four, and every
interior index i uses the half open window from i minus 2 up to i plus 2,
each divided by 4 under the square root. -/
theorem C6_error_windows (raw smooth : List ℝ) (h4 : 4 ≤ raw.length) :
    ∀ i : ℕ, i < raw.length →
      (compute_errs raw smooth).getD i 0 = spec_err raw smooth i := by
  intro i hi
  simp only [compute_errs]
  have hbase : ((set_head_vals (List.replicate raw.length (0 : ℝ)) 2
      (rms4 (raw.take 4) (smooth.take 4))).set (raw.length - 1)
      (rms4 (raw.drop (raw.length - 4)) (smooth.drop (raw.length - 4)))).length =
      raw.length := by
    simp [set_head_vals_length]
  rw [foldl_set_getD _ _ _ _ (by rw [hbase]; exact hi)]
  by_cases hmem : i ∈ List.range' 2 (raw.length - 3)
  · rw [if_pos hmem]
    have hb := List.mem_range'_1.mp hmem
    rw [spec_err, if_neg (by omega), if_neg (by omega)]
  · rw [if_neg hmem]
    have hnb : ¬ (2 ≤ i ∧ i < 2 + (raw.length - 3)) := fun h => hmem (List.mem_range'_1.mpr h)
    rw [getD_set]
    by_cases hlast : i = raw.length - 1
    · rw [if_pos ⟨hlast, by rw [set_head_vals_length, List.length_replicate]; exact hi⟩]
      rw [spec_err, if_neg (by omega), if_pos hlast]
    · have hsmall : i ≤ 1 := by omega
      rw [if_neg (by tauto)]
      rw [set_head_vals_getD _ _ _ _ (by rw [List.length_replicate]; exact hi)]
      rw [if_pos (by omega)]
      rw [spec_err, if_pos hsmall]

theorem getD_map_range {β : Type} (N : ℕ) (f : ℕ → β) (n : ℕ) (hn : n < N) (d : β) :
    ((List.range N).map f).getD n d = f n := by
  simp [List.getD_eq_getElem?_getD, List.getElem?_map, List.getElem?_range hn]

/-- C2: for every radius index the loop builds the unchanged pair plus five
perturbed copies; each copy modifies only position i, perturbing the
ellipticity through the transform with a scaled standard normal step of
size 0.03 exactly when count modulo 3 is 0 or 1, and the position angle
directly with a step of size 0.06 wrapped modulo pi exactly when count
modulo 3 is 1 or 2, so that remainder 0 leaves the angle array untouched
and remainder 2 leaves the ellipticity array untouched; losses are
evaluated with regularization scale 0 while count is at most 4 and the
configured scale (default 1) afterwards. -/
theorem C2_candidate_pool (x_to_eps inv_x_to_eps : ℝ → ℝ) (ellip pa : List ℝ)
    (i count : ℕ) (zE zP : ℕ → ℝ) (reg : ℝ) :
    (make_perturbations x_to_eps inv_x_to_eps ellip pa i count zE zP).length = 1 + N_perturb ∧
    N_perturb = 5 ∧
    (make_perturbations x_to_eps inv_x_to_eps ellip pa i count zE zP).getD 0 (ellip, pa) =
      (ellip, pa) ∧
    (∀ n : Fin N_perturb,
      (make_perturbations x_to_eps inv_x_to_eps ellip pa i count zE zP).getD (n + 1)
          (ellip, pa) =
        (if count % 3 = 0 ∨ count % 3 = 1 then
           ellip.set i (x_to_eps (inv_x_to_eps (ellip.getD i 0) + 0.03 * zE n))
         else ellip,
         if count % 3 = 1 ∨ count % 3 = 2 then
           pa.set i (npmod (pa.getD i 0 + 0.06 * zP n) Real.pi)
         else pa)) ∧
    (∀ n : Fin N_perturb, count % 3 = 0 →
      ((make_perturbations x_to_eps inv_x_to_eps ellip pa i count zE zP).getD (n + 1)
        (ellip, pa)).2 = pa) ∧
    (∀ n : Fin N_perturb, count % 3 = 2 →
      ((make_perturbations x_to_eps inv_x_to_eps ellip pa i count zE zP).getD (n + 1)
        (ellip, pa)).1 = ellip) ∧
    loop_reg_scale reg count = (if count ≤ 4 then 0 else reg) ∧
    regularize_scale_opt none = 1 := by
  have hget : ∀ n : Fin N_perturb,
      (make_perturbations x_to_eps inv_x_to_eps ellip pa i count zE zP).getD (n + 1)
          (ellip, pa) =
        (if count % 3 = 0 ∨ count % 3 = 1 then
           ellip.set i (x_to_eps (inv_x_to_eps (ellip.getD i 0) + perturb_scale.1 * zE n))
         else ellip,
         if count % 3 = 1 ∨ count % 3 = 2 then
           pa.set i (npmod (pa.getD i 0 + perturb_scale.2 * zP n) Real.pi)
         else pa) := by
    intro n
    simp only [make_perturbations, List.getD_cons_succ]
    exact getD_map_range _ _ _ n.isLt _
  refine ⟨by simp [make_perturbations, N_perturb], rfl, rfl, ?_, ?_, ?_, ?_, rfl⟩
  · intro n
    rw [hget n]
    norm_num [perturb_scale]
  · intro n h
    rw [hget n]
    simp only [h]
    rw [if_neg (by omega)]
  · intro n h
    rw [hget n]
    simp only [h]
    rw [if_neg (by omega)]
  · rw [loop_reg_scale]
    split_ifs <;> first | rfl | omega

theorem fit_loop_caps {L : Type} [LinearOrder L] (dflt : L)
    (lossFn : ℕ → List ℝ → List ℝ → ℕ → L) (x_to_eps inv_x_to_eps : ℝ → ℝ)
    (rnd : RandomStream) (nR : ℕ) : ∀ fuel count s, 300 - count ≤ fuel →
    (fit_loop dflt lossFn x_to_eps inv_x_to_eps rnd nR count s).1 ≤ max count 300 ∧
    (300 ≤ (fit_loop dflt lossFn x_to_eps inv_x_to_eps rnd nR count s).1 ∨
     3 * nR ≤ (fit_loop dflt lossFn x_to_eps inv_x_to_eps rnd nR count s).2.nochange) := by
  intro fuel
  induction fuel with
  | zero =>
    intro count s h
    rw [fit_loop, if_neg (by omega)]
    exact ⟨le_max_left _ _, Or.inl (by omega)⟩
  | succ f ih =>
    intro count s h
    rw [fit_loop]
    split
    · rename_i hc
      have hrec := ih (count + 1)
        (fit_pass dflt (lossFn (count + 1)) x_to_eps inv_x_to_eps (count + 1) rnd s)
        (by omega)
      refine ⟨?_, hrec.2⟩
      have h1 := hrec.1
      rw [Nat.max_eq_right (by omega : count + 1 ≤ 300)] at h1
      exact le_trans h1 (le_max_right _ _)
    · rename_i hc
      push_neg at hc
      rcases Nat.lt_or_ge count 300 with h3 | h3
      · exact ⟨le_max_left _ _, Or.inr (hc h3)⟩
      · exact ⟨le_max_left _ _, Or.inl h3⟩

/-- C1: in each inner step the winner is the first minimal loss candidate;
the winner has positive index exactly when its loss is strictly below the
loss of the unchanged candidate at index 0 (ties go to index 0), in which
case the full winning arrays are committed with the no change counter reset
to zero, and otherwise the arrays are kept and the counter is incremented
by one; the outer loop stops as soon as the count reaches 300 or the no
change counter reaches three times the radius count, so the final count
never exceeds the larger of the entry count and 300. -/
theorem C1_accept_terminate {L : Type} [LinearOrder L] (dflt : L)
    (lossFn : List ℝ → List ℝ → ℕ → L) (lossFn2 : ℕ → List ℝ → List ℝ → ℕ → L)
    (x_to_eps inv_x_to_eps : ℝ → ℝ) (count : ℕ) (zE zP : ℕ → ℝ) (s : LoopState)
    (i : ℕ) (rnd : RandomStream) (nR c : ℕ) (s0 : LoopState) :
    (let perturbations := make_perturbations x_to_eps inv_x_to_eps s.ellip s.pa i count zE zP
     let losses := perturbations.map (fun p => lossFn p.1 p.2 i)
     let best := np_argmin dflt losses
     losses.getD 0 dflt = lossFn s.ellip s.pa i ∧
     (0 < best ↔ losses.getD best dflt < losses.getD 0 dflt) ∧
     fit_step dflt lossFn x_to_eps inv_x_to_eps count zE zP s i =
       (if 0 < best then
          { ellip := (perturbations.getD best (s.ellip, s.pa)).1,
            pa := (perturbations.getD best (s.ellip, s.pa)).2, nochange := 0 }
        else { ellip := s.ellip, pa := s.pa, nochange := s.nochange + 1 })) ∧
    (fit_loop dflt lossFn2 x_to_eps inv_x_to_eps rnd nR c s0).1 ≤ max c 300 ∧
    (300 ≤ (fit_loop dflt lossFn2 x_to_eps inv_x_to_eps rnd nR c s0).1 ∨
     3 * nR ≤ (fit_loop dflt lossFn2 x_to_eps inv_x_to_eps rnd nR c s0).2.nochange) := by
  refine ⟨⟨?_, np_argmin_pos_iff _ _, rfl⟩, ?_, ?_⟩
  · simp [make_perturbations]
  · exact (fit_loop_caps dflt lossFn2 x_to_eps inv_x_to_eps rnd nR (300 - c) c s0 le_rfl).1
  · exact (fit_loop_caps dflt lossFn2 x_to_eps inv_x_to_eps rnd nR (300 - c) c s0 le_rfl).2

/-- C8: the mean normalized loss returns the infinite loss whenever any
extracted sample is non finite, returns a finite real value otherwise, and
the argmin selection of the loop can never prefer an infinite loss
candidate over a finite loss unchanged candidate, so fitting continues. -/
theorem C8_mean_loss_nonfinite (extract : ℝ → ℝ → ℝ → List (Option ℝ))
    (R E PA : List ℝ) (i : ℕ) (noise reg_scale : ℝ)
    (lossFn : List ℝ → List ℝ → ℕ → EReal) (s : LoopState) (j count : ℕ)
    (zE zP : ℕ → ℝ) (x_to_eps inv_x_to_eps : ℝ → ℝ) :
    (none ∈ extract (R.getD i 0) (E.getD i 0) (PA.getD i 0) →
      FFT_mean_loss extract R E PA i noise reg_scale = ⊤) ∧
    ((extract (R.getD i 0) (E.getD i 0) (PA.getD i 0)).all Option.isSome →
      ∃ x : ℝ, FFT_mean_loss extract R E PA i noise reg_scale = (x : EReal)) ∧
    (lossFn s.ellip s.pa j ≠ ⊤ →
      ((make_perturbations x_to_eps inv_x_to_eps s.ellip s.pa j count zE zP).map
          (fun p => lossFn p.1 p.2 j)).getD
        (np_argmin ⊤ ((make_perturbations x_to_eps inv_x_to_eps s.ellip s.pa j count zE zP).map
          (fun p => lossFn p.1 p.2 j))) ⊤ ≠ ⊤) := by
  refine ⟨?_, ?_, ?_⟩
  · intro h
    simp only [FFT_mean_loss]
    rw [if_neg]
    intro hall
    have := List.all_eq_true.mp hall none h
    simp at this
  · intro h
    simp only [FFT_mean_loss]
    rw [if_pos h]
    exact ⟨_, rfl⟩
  · intro hfin
    have h0 : ((make_perturbations x_to_eps inv_x_to_eps s.ellip s.pa j count zE zP).map
        (fun p => lossFn p.1 p.2 j)).getD 0 ⊤ = lossFn s.ellip s.pa j := by
      simp [make_perturbations]
    have hlen : 0 < ((make_perturbations x_to_eps inv_x_to_eps s.ellip s.pa j count zE zP).map
        (fun p => lossFn p.1 p.2 j)).length := by
      simp [make_perturbations]
    intro htop
    have hle := np_argmin_le (⊤ : EReal)
      ((make_perturbations x_to_eps inv_x_to_eps s.ellip s.pa j count zE zP).map
        (fun p => lossFn p.1 p.2 j)) 0 hlen
    rw [htop, h0] at hle
    exact hfin (top_le_iff.mp hle)

theorem grow_radii_head (flux : ℝ → ℝ) (stop_flux bound factor : ℝ) (fuel : ℕ) (r : ℝ) :
    (grow_radii flux stop_flux bound factor fuel r).head? = some r := by
  cases fuel with
  | zero => rfl
  | succ f =>
    rw [grow_radii]
    split <;> rfl

theorem grow_radii_ne_nil (flux : ℝ → ℝ) (stop_flux bound factor : ℝ) (fuel : ℕ) (r : ℝ) :
    grow_radii flux stop_flux bound factor fuel r ≠ [] := by
  cases fuel with
  | zero => simp [grow_radii]
  | succ f =>
    rw [grow_radii]
    split <;> simp

theorem grow_radii_chain_lt (flux : ℝ → ℝ) (stop_flux bound factor : ℝ)
    (hf : 1 < factor) :
    ∀ fuel (r : ℝ), 0 < r →
      List.Chain' (· < ·) (grow_radii flux stop_flux bound factor fuel r) := by
  intro fuel
  induction fuel with
  | zero => intro r _; simp [grow_radii]
  | succ f ih =>
    intro r hr
    rw [grow_radii]
    split
    · rw [List.chain'_cons']
      refine ⟨?_, ih (r * factor) (mul_pos hr (lt_trans one_pos hf))⟩
      intro b hb
      rw [grow_radii_head, Option.mem_some_iff] at hb
      subst hb
      calc r = r * 1 := (mul_one r).symm
        _ < r * factor := (mul_lt_mul_left hr).mpr hf
    · simp

theorem grow_radii_chain_mul (flux : ℝ → ℝ) (stop_flux bound factor : ℝ) :
    ∀ fuel (r : ℝ),
      List.Chain' (fun a b => b = a * factor) (grow_radii flux stop_flux bound factor fuel r) := by
  intro fuel
  induction fuel with
  | zero => intro r; simp [grow_radii]
  | succ f ih =>
    intro r
    rw [grow_radii]
    split
    · rw [List.chain'_cons']
      refine ⟨?_, ih (r * factor)⟩
      intro b hb
      rw [grow_radii_head, Option.mem_some_iff] at hb
      exact hb.symm
    · simp

theorem grow_radii_stop (flux : ℝ → ℝ) (stop_flux bound factor : ℝ) (fuel : ℕ) (r : ℝ)
    (hb : bound ≤ r) : grow_radii flux stop_flux bound factor fuel r = [r] := by
  cases fuel with
  | zero => rfl
  | succ f =>
    rw [grow_radii, if_neg]
    intro h
    exact absurd h.1 (not_lt.mpr hb)

theorem grow_radii_stable (flux : ℝ → ℝ) (stop_flux bound factor : ℝ) (hf : 1 < factor) :
    ∀ n (r : ℝ), 0 < r → bound ≤ r * factor ^ n → ∀ fuel, n ≤ fuel →
      grow_radii flux stop_flux bound factor fuel r =
        grow_radii flux stop_flux bound factor n r := by
  intro n
  induction n with
  | zero =>
    intro r hr hb fuel _
    rw [pow_zero, mul_one] at hb
    exact grow_radii_stop flux stop_flux bound factor fuel r hb
  | succ m ih =>
    intro r hr hb fuel hfuel
    obtain ⟨f, rfl⟩ : ∃ f, fuel = f + 1 := ⟨fuel - 1, by omega⟩
    rw [grow_radii, grow_radii]
    split
    · congr 1
      refine ih (r * factor) (mul_pos hr (lt_trans one_pos hf)) ?_ f (by omega)
      calc bound ≤ r * factor ^ (m + 1) := hb
        _ = r * factor * factor ^ m := by ring
    · rfl

theorem grow_radii_eventually (flux : ℝ → ℝ) (stop_flux bound factor : ℝ) (r : ℝ)
    (hr : 0 < r) (hf : 1 < factor) :
    ∃ N, ∀ fuel, N ≤ fuel →
      grow_radii flux stop_flux bound factor fuel r =
        grow_radii flux stop_flux bound factor N r := by
  obtain ⟨n, hn⟩ := pow_unbounded_of_one_lt (bound / r) hf
  refine ⟨n, fun fuel hfuel => grow_radii_stable flux stop_flux bound factor hf n r hr ?_ fuel hfuel⟩
  have h1 : bound / r * r ≤ factor ^ n * r := le_of_lt (mul_lt_mul_of_pos_right hn hr)
  have h2 : bound / r * r = bound := by field_simp
  calc bound = bound / r * r := h2.symm
    _ ≤ factor ^ n * r := h1
    _ = r * factor ^ n := mul_comm _ _

theorem init_radii_none_iff (flux : ℝ → ℝ) (stop_flux bound scale r0 : ℝ) (fuel : ℕ) :
    ∀ k shrink, 5 - shrink ≤ k →
      (init_radii flux stop_flux bound scale r0 fuel shrink = none ↔
        ∀ s : ℕ, shrink ≤ s → s < 5 →
          (grow_radii flux stop_flux bound (1 + scale / (1 + (s : ℝ))) fuel r0).length < 15) := by
  intro k
  induction k with
  | zero =>
    intro shrink hk
    rw [init_radii, dif_neg (by omega)]
    constructor
    · intro _ s h1 h2
      omega
    · intro _
      rfl
  | succ kk ih =>
    intro shrink hk
    by_cases h5 : shrink < 5
    · rw [init_radii, dif_pos h5]
      by_cases hlen :
          (grow_radii flux stop_flux bound (1 + scale / (1 + (shrink : ℝ))) fuel r0).length < 15
      · rw [if_pos hlen, ih (shrink + 1) (by omega)]
        constructor
        · intro hall s h1 h2
          rcases eq_or_lt_of_le h1 with he | hlt
          · rw [← he]
            exact hlen
          · exact hall s (by omega) h2
        · intro hall s h1 h2
          exact hall s (by omega) h2
      · rw [if_neg hlen]
        constructor
        · intro hsome
          simp at hsome
        · intro hall
          exact absurd (hall shrink le_rfl h5) hlen
    · rw [init_radii, dif_neg h5]
      constructor
      · intro _ s h1 h2
        omega
      · intro _
        rfl

/-- C4: every relaxation attempt grows a strictly increasing radius list
starting at one and a half times the psf fwhm with successive ratio one
plus scale over one plus the attempt number; a growth step continues
exactly while the last radius is below half the largest image dimension
and the ring flux has not dropped below the stop threshold; the generated
list stabilizes once the fuel is large enough, so generation terminates;
the shrink loop reports failure exactly when all five attempts yield fewer
than 15 radii, in which case (and only then) the robust fitter returns the
error before any fitting; the fit limit defaults are 2 for the robust and
1 for the mean variant. -/
theorem C4_radius_init (flux : ℝ → ℝ) (stop_flux bound scale psf : ℝ) (fuel : ℕ)
    (hpsf : 0 < psf) (hscale : 0 < scale) :
    (∀ s : Fin 5,
      (grow_radii flux stop_flux bound (1 + scale / (1 + ((s : ℕ) : ℝ))) fuel
        (3 * psf / 2)).head? = some (1.5 * psf)) ∧
    (∀ s : Fin 5, List.Chain' (· < ·)
      (grow_radii flux stop_flux bound (1 + scale / (1 + ((s : ℕ) : ℝ))) fuel (3 * psf / 2))) ∧
    (∀ s : Fin 5, List.Chain' (fun a b => b = a * (1 + scale / (1 + ((s : ℕ) : ℝ))))
      (grow_radii flux stop_flux bound (1 + scale / (1 + ((s : ℕ) : ℝ))) fuel (3 * psf / 2))) ∧
    (∀ (factor r : ℝ) (fuel2 : ℕ),
      grow_radii flux stop_flux bound factor (fuel2 + 1) r =
        if r < bound ∧ ¬ flux r < stop_flux then
          r :: grow_radii flux stop_flux bound factor fuel2 (r * factor)
        else [r]) ∧
    (∀ s : Fin 5, ∃ N, ∀ fuel2, N ≤ fuel2 →
      grow_radii flux stop_flux bound (1 + scale / (1 + ((s : ℕ) : ℝ))) fuel2 (3 * psf / 2) =
        grow_radii flux stop_flux bound (1 + scale / (1 + ((s : ℕ) : ℝ))) N (3 * psf / 2)) ∧
    (init_radii flux stop_flux bound scale (3 * psf / 2) fuel 0 = none ↔
      ∀ s : Fin 5,
        (grow_radii flux stop_flux bound (1 + scale / (1 + ((s : ℕ) : ℝ))) fuel
          (3 * psf / 2)).length < 15) ∧
    (∀ (IMG : ℕ → ℕ → ℝ) (shape : ℕ × ℕ) (background noise init_ellip init_pa : ℝ)
      (masked : Bool) (extract : (ℕ → ℕ → ℝ) → ℝ → ℝ → ℝ → List ℝ)
      (huber : ℕ → List ℝ → List ℝ → ℝ → ℝ) (x_to_eps inv_x_to_eps : ℝ → ℝ)
      (a1 a2 a3 : Option ℝ) (rnd : RandomStream) (fuel3 : ℕ),
      (Isophote_Fit_FFT_Robust IMG shape background noise psf init_ellip init_pa masked
          extract huber x_to_eps inv_x_to_eps a1 a2 a3 rnd fuel3 =
        .error "Unable to initialize ellipse fit, check diagnostic plots. Possible missed center.") ↔
      init_radii
        (fun r => np_median (extract (fun x y => IMG x y - background) r init_ellip init_pa))
        (fit_limit_robust_opt a2 * noise) (((max shape.1 shape.2 : ℕ) : ℝ) / 2)
        (scale_opt a1) (3 * psf / 2) fuel3 0 = none) ∧
    fit_limit_robust_opt none = 2 ∧ fit_limit_mean_opt none = 1 := by
  have hr0 : (0 : ℝ) < 3 * psf / 2 := by linarith
  have hfac : ∀ s : Fin 5, 1 < 1 + scale / (1 + ((s : ℕ) : ℝ)) := by
    intro s
    have hd : (0 : ℝ) < 1 + ((s : ℕ) : ℝ) := by positivity
    have := div_pos hscale hd
    linarith
  refine ⟨?_, ?_, ?_, ?_, ?_, ?_, ?_, rfl, rfl⟩
  · intro s
    rw [grow_radii_head]
    congr 1
    norm_num
    ring
  · intro s
    exact grow_radii_chain_lt flux stop_flux bound _ (hfac s) fuel _ hr0
  · intro s
    exact grow_radii_chain_mul flux stop_flux bound _ fuel _
  · intro factor r fuel2
    rw [grow_radii]
  · intro s
    exact grow_radii_eventually flux stop_flux bound _ _ hr0 (hfac s)
  · rw [init_radii_none_iff flux stop_flux bound scale (3 * psf / 2) fuel 5 0 (by omega)]
    constructor
    · intro h s
      exact h (s : ℕ) (Nat.zero_le _) s.isLt
    · intro h s _ h2
      exact h ⟨s, h2⟩
  · intro IMG shape background noise init_ellip init_pa masked extract huber x_to_eps
      inv_x_to_eps a1 a2 a3 rnd fuel3
    cases h : init_radii
        (fun r => np_median (extract (fun x y => IMG x y - background) r init_ellip init_pa))
        (fit_limit_robust_opt a2 * noise) (((max shape.1 shape.2 : ℕ) : ℝ) / 2)
        (scale_opt a1) (3 * psf / 2) fuel3 0 with
    | none =>
      simp only [Isophote_Fit_FFT_Robust]
      rw [h]
      simp
    | some v =>
      simp only [Isophote_Fit_FFT_Robust]
      rw [h]
      simp

/-- C5 (amended): the collapsed center scan steps through the first five
radius indices in order, and whenever the transformed ellipticity drops by
more than one half between index i and index i plus 1 it flattens both
arrays up to and including index i to the value at index i plus 1; after
the scan the first three entries of the returned ellipticity array are
clamped to their shared minimum, while the smoothed reference trend is
computed from the collapsed, pre clamp ellipticity array. -/
theorem C5_collapse_and_clamp (huber : ℕ → List ℝ → List ℝ → ℝ → ℝ)
    (x_to_eps inv_x_to_eps : ℝ → ℝ) (R ellip pa : List ℝ) :
    (collapse_center inv_x_to_eps ellip pa =
      (List.range 5).foldl (fun ep i =>
        if 0.5 < inv_x_to_eps (ep.1.getD i 0) - inv_x_to_eps (ep.1.getD (i + 1) 0) then
          (set_head_vals ep.1 (i + 1) (ep.1.getD (i + 1) 0),
           set_head_vals ep.2 (i + 1) (ep.2.getD (i + 1) 0))
        else ep) (ellip, pa)) ∧
    (∀ (l : List ℝ) (i j : ℕ) (v : ℝ), j < l.length →
      (set_head_vals l (i + 1) v).getD j 0 = if j ≤ i then v else l.getD j 0) ∧
    ((fit_postprocess huber x_to_eps inv_x_to_eps R ellip pa).1.fit_ellip =
      clamp3 (collapse_center inv_x_to_eps ellip pa).1) ∧
    (∀ (l : List ℝ) (j : ℕ), j < l.length →
      (clamp3 l).getD j 0 =
        if j < 3 then min (min (l.getD 0 0) (l.getD 1 0)) (l.getD 2 0) else l.getD j 0) ∧
    ((fit_postprocess huber x_to_eps inv_x_to_eps R ellip pa).2.1 =
      ellip_smooth huber x_to_eps inv_x_to_eps 5 R (collapse_center inv_x_to_eps ellip pa).1) := by
  refine ⟨rfl, ?_, rfl, ?_, rfl⟩
  · intro l i j v hj
    rw [set_head_vals_getD _ _ _ _ hj]
    simp [Nat.lt_succ_iff]
  · intro l j hj
    rw [clamp3, set_head_vals_getD _ _ _ _ hj]

/-- C9: the robust fitter never mutates the input image: the image
component of the returned pair is the input unchanged, and the result
bundle depends on the image and the background only through their
pointwise difference, the freshly derived background subtracted data. -/
theorem C9_image_immutable (IMG : ℕ → ℕ → ℝ) (shape : ℕ × ℕ)
    (background noise psf_fwhm init_ellip init_pa : ℝ) (masked : Bool)
    (extract : (ℕ → ℕ → ℝ) → ℝ → ℝ → ℝ → List ℝ)
    (huber : ℕ → List ℝ → List ℝ → ℝ → ℝ) (x_to_eps inv_x_to_eps : ℝ → ℝ)
    (a1 a2 a3 : Option ℝ) (rnd : RandomStream) (fuel : ℕ) :
    Except.map Prod.fst
        (Isophote_Fit_FFT_Robust IMG shape background noise psf_fwhm init_ellip init_pa
          masked extract huber x_to_eps inv_x_to_eps a1 a2 a3 rnd fuel) =
      Except.map (fun _ => IMG)
        (Isophote_Fit_FFT_Robust IMG shape background noise psf_fwhm init_ellip init_pa
          masked extract huber x_to_eps inv_x_to_eps a1 a2 a3 rnd fuel) ∧
    ∀ (IMG2 : ℕ → ℕ → ℝ) (background2 : ℝ),
      (∀ x y, IMG2 x y - background2 = IMG x y - background) →
      Except.map Prod.snd
          (Isophote_Fit_FFT_Robust IMG2 shape background2 noise psf_fwhm init_ellip init_pa
            masked extract huber x_to_eps inv_x_to_eps a1 a2 a3 rnd fuel) =
        Except.map Prod.snd
          (Isophote_Fit_FFT_Robust IMG shape background noise psf_fwhm init_ellip init_pa
            masked extract huber x_to_eps inv_x_to_eps a1 a2 a3 rnd fuel) := by
  constructor
  · simp only [Isophote_Fit_FFT_Robust]
    cases h : init_radii
        (fun r => np_median (extract (fun x y => IMG x y - background) r init_ellip init_pa))
        (fit_limit_robust_opt a2 * noise) (((max shape.1 shape.2 : ℕ) : ℝ) / 2)
        (scale_opt a1) (3 * psf_fwhm / 2) fuel 0 with
    | none => rfl
    | some v => rfl
  · intro IMG2 background2 hdiff
    have hdat : (fun x y => IMG2 x y - background2) = (fun x y => IMG x y - background) :=
      funext fun x => funext fun y => hdiff x y
    simp only [Isophote_Fit_FFT_Robust]
    rw [hdat]
    cases h : init_radii
        (fun r => np_median (extract (fun x y => IMG x y - background) r init_ellip init_pa))
        (fit_limit_robust_opt a2 * noise) (((max shape.1 shape.2 : ℕ) : ℝ) / 2)
        (scale_opt a1) (3 * psf_fwhm / 2) fuel 0 with
    | none => rfl
    | some v => rfl

theorem getD_mem_of_lt {β : Type} (l : List β) (n : ℕ) (d : β) (h : n < l.length) :
    l.getD n d ∈ l := by
  rw [List.getD_eq_getElem?_getD, List.getElem?_eq_getElem h]
  exact List.getElem_mem h

theorem make_perturbations_len (x_to_eps inv_x_to_eps : ℝ → ℝ) (ellip pa : List ℝ)
    (i count : ℕ) (zE zP : ℕ → ℝ) :
    ∀ q ∈ make_perturbations x_to_eps inv_x_to_eps ellip pa i count zE zP,
      q.1.length = ellip.length ∧ q.2.length = pa.length := by
  intro q hq
  simp only [make_perturbations, List.mem_cons, List.mem_map, List.mem_range] at hq
  rcases hq with rfl | ⟨n, _, rfl⟩
  · exact ⟨rfl, rfl⟩
  · refine ⟨?_, ?_⟩ <;> (dsimp only; split <;> simp)

theorem fit_step_len {L : Type} [LinearOrder L] (dflt : L)
    (lossFn : List ℝ → List ℝ → ℕ → L) (x_to_eps inv_x_to_eps : ℝ → ℝ)
    (count : ℕ) (zE zP : ℕ → ℝ) (s : LoopState) (i : ℕ) :
    (fit_step dflt lossFn x_to_eps inv_x_to_eps count zE zP s i).ellip.length =
      s.ellip.length ∧
    (fit_step dflt lossFn x_to_eps inv_x_to_eps count zE zP s i).pa.length =
      s.pa.length := by
  simp only [fit_step]
  split
  · rename_i hbest
    by_cases hlt : np_argmin dflt
        ((make_perturbations x_to_eps inv_x_to_eps s.ellip s.pa i count zE zP).map
          (fun p => lossFn p.1 p.2 i)) <
        (make_perturbations x_to_eps inv_x_to_eps s.ellip s.pa i count zE zP).length
    · have hmem := getD_mem_of_lt _ _ (s.ellip, s.pa) hlt
      exact make_perturbations_len x_to_eps inv_x_to_eps s.ellip s.pa i count zE zP _ hmem
    · push_neg at hlt
      rw [List.getD_eq_getElem?_getD, List.getElem?_eq_none (by simpa using hlt)]
      exact ⟨rfl, rfl⟩
  · exact ⟨rfl, rfl⟩

theorem foldl_fit_step_len {L : Type} [LinearOrder L] (dflt : L)
    (lossFn : List ℝ → List ℝ → ℕ → L) (x_to_eps inv_x_to_eps : ℝ → ℝ) (count : ℕ)
    (zE zP : ℕ → ℕ → ℝ) :
    ∀ (ord : List ℕ) (s : LoopState),
      ((ord.foldl (fun t i => fit_step dflt lossFn x_to_eps inv_x_to_eps count
          (zE i) (zP i) t i) s).ellip.length = s.ellip.length) ∧
      ((ord.foldl (fun t i => fit_step dflt lossFn x_to_eps inv_x_to_eps count
          (zE i) (zP i) t i) s).pa.length = s.pa.length) := by
  intro ord
  induction ord with
  | nil => intro s; exact ⟨rfl, rfl⟩
  | cons a t ih =>
    intro s
    rw [List.foldl_cons]
    have h1 := ih (fit_step dflt lossFn x_to_eps inv_x_to_eps count (zE a) (zP a) s a)
    have h2 := fit_step_len dflt lossFn x_to_eps inv_x_to_eps count (zE a) (zP a) s a
    exact ⟨h1.1.trans h2.1, h1.2.trans h2.2⟩

theorem fit_pass_len {L : Type} [LinearOrder L] (dflt : L)
    (lossFn : List ℝ → List ℝ → ℕ → L) (x_to_eps inv_x_to_eps : ℝ → ℝ) (count : ℕ)
    (rnd : RandomStream) (s : LoopState) :
    (fit_pass dflt lossFn x_to_eps inv_x_to_eps count rnd s).ellip.length =
      s.ellip.length ∧
    (fit_pass dflt lossFn x_to_eps inv_x_to_eps count rnd s).pa.length = s.pa.length := by
  exact foldl_fit_step_len dflt lossFn x_to_eps inv_x_to_eps count
    (rnd.zE count) (rnd.zP count) (rnd.order count) s

theorem fit_loop_len {L : Type} [LinearOrder L] (dflt : L)
    (lossFn : ℕ → List ℝ → List ℝ → ℕ → L) (x_to_eps inv_x_to_eps : ℝ → ℝ)
    (rnd : RandomStream) (nR : ℕ) : ∀ fuel count s, 300 - count ≤ fuel →
    ((fit_loop dflt lossFn x_to_eps inv_x_to_eps rnd nR count s).2.ellip.length =
      s.ellip.length) ∧
    ((fit_loop dflt lossFn x_to_eps inv_x_to_eps rnd nR count s).2.pa.length =
      s.pa.length) := by
  intro fuel
  induction fuel with
  | zero =>
    intro count s h
    rw [fit_loop, if_neg (by omega)]
    exact ⟨rfl, rfl⟩
  | succ f ih =>
    intro count s h
    rw [fit_loop]
    split
    · have h1 := ih (count + 1)
        (fit_pass dflt (lossFn (count + 1)) x_to_eps inv_x_to_eps (count + 1) rnd s)
        (by omega)
      have h2 := fit_pass_len dflt (lossFn (count + 1)) x_to_eps inv_x_to_eps
        (count + 1) rnd s
      exact ⟨h1.1.trans h2.1, h1.2.trans h2.2⟩
    · exact ⟨rfl, rfl⟩

theorem collapse_center_len (inv_x_to_eps : ℝ → ℝ) (ellip pa : List ℝ) :
    (collapse_center inv_x_to_eps ellip pa).1.length = ellip.length ∧
    (collapse_center inv_x_to_eps ellip pa).2.length = pa.length := by
  suffices h : ∀ (Ls : List ℕ) (ep : List ℝ × List ℝ),
      ((Ls.foldl (fun ep i =>
        if 0.5 < inv_x_to_eps (ep.1.getD i 0) - inv_x_to_eps (ep.1.getD (i + 1) 0) then
          (set_head_vals ep.1 (i + 1) (ep.1.getD (i + 1) 0),
           set_head_vals ep.2 (i + 1) (ep.2.getD (i + 1) 0))
        else ep) ep).1.length = ep.1.length) ∧
      ((Ls.foldl (fun ep i =>
        if 0.5 < inv_x_to_eps (ep.1.getD i 0) - inv_x_to_eps (ep.1.getD (i + 1) 0) then
          (set_head_vals ep.1 (i + 1) (ep.1.getD (i + 1) 0),
           set_head_vals ep.2 (i + 1) (ep.2.getD (i + 1) 0))
        else ep) ep).2.length = ep.2.length) by
    exact h (List.range 5) (ellip, pa)
  intro Ls
  induction Ls with
  | nil => intro ep; exact ⟨rfl, rfl⟩
  | cons a t ih =>
    intro ep
    rw [List.foldl_cons]
    split
    · have h1 := ih (set_head_vals ep.1 (a + 1) (ep.1.getD (a + 1) 0),
        set_head_vals ep.2 (a + 1) (ep.2.getD (a + 1) 0))
      rw [h1.1, h1.2]
      exact ⟨set_head_vals_length _ _ _, set_head_vals_length _ _ _⟩
    · exact ih ep

theorem clamp3_length (l : List ℝ) : (clamp3 l).length = l.length :=
  set_head_vals_length _ _ _

theorem compute_errs_length (raw smooth : List ℝ) :
    (compute_errs raw smooth).length = raw.length := by
  simp only [compute_errs]
  rw [foldl_set_length]
  simp [set_head_vals_length]

theorem init_radii_some_charac (flux : ℝ → ℝ) (stop_flux bound scale r0 : ℝ) (fuel : ℕ) :
    ∀ k shrink l, 5 - shrink ≤ k →
      init_radii flux stop_flux bound scale r0 fuel shrink = some l →
      15 ≤ l.length ∧ ∃ s : ℕ, shrink ≤ s ∧ s < 5 ∧
        l = grow_radii flux stop_flux bound (1 + scale / (1 + (s : ℝ))) fuel r0 := by
  intro k
  induction k with
  | zero =>
    intro shrink l hk hsome
    rw [init_radii, dif_neg (by omega)] at hsome
    exact absurd hsome (by simp)
  | succ kk ih =>
    intro shrink l hk hsome
    by_cases h5 : shrink < 5
    · rw [init_radii, dif_pos h5] at hsome
      by_cases hlen :
          (grow_radii flux stop_flux bound (1 + scale / (1 + (shrink : ℝ))) fuel r0).length < 15
      · rw [if_pos hlen] at hsome
        obtain ⟨hl, s, hs1, hs2, hs3⟩ := ih (shrink + 1) l (by omega) hsome
        exact ⟨hl, s, by omega, hs2, hs3⟩
      · rw [if_neg hlen] at hsome
        have hl : l = grow_radii flux stop_flux bound (1 + scale / (1 + (shrink : ℝ))) fuel r0 :=
          (Option.some_injective _ hsome).symm
        exact ⟨by rw [hl]; omega, shrink, le_rfl, h5, hl⟩
    · rw [init_radii, dif_neg h5] at hsome
      exact absurd hsome (by simp)

theorem chain_lt_le_getLast (l : List ℝ) (hc : List.Chain' (· < ·) l) :
    ∀ x ∈ l, x ≤ l.getLast?.getD 0 := by
  induction l with
  | nil => simp
  | cons a t ih =>
    intro x hx
    rcases List.mem_cons.mp hx with rfl | hxt
    · cases t with
      | nil => simp
      | cons b u =>
        rw [List.getLast?_cons_cons]
        have hab : x < b := (List.chain'_cons.mp hc).1
        have hbu := (List.chain'_cons.mp hc).2
        have hb := ih hbu b (List.mem_cons_self _ _)
        linarith
    · cases t with
      | nil => simp at hxt
      | cons b u =>
        rw [List.getLast?_cons_cons]
        exact ih (List.chain'_cons.mp hc).2 x hxt

theorem post_bundle_props (huber : ℕ → List ℝ → List ℝ → ℝ → ℝ)
    (x_to_eps inv_x_to_eps : ℝ → ℝ) (sample_radii e p : List ℝ)
    (he : e.length = sample_radii.length) (hp : p.length = sample_radii.length)
    (h15 : 15 ≤ sample_radii.length) (hchain : List.Chain' (· < ·) sample_radii) :
    (fit_postprocess huber x_to_eps inv_x_to_eps sample_radii e p).1.fit_ellip.length =
      (fit_postprocess huber x_to_eps inv_x_to_eps sample_radii e p).1.fit_R.length ∧
    (fit_postprocess huber x_to_eps inv_x_to_eps sample_radii e p).1.fit_pa.length =
      (fit_postprocess huber x_to_eps inv_x_to_eps sample_radii e p).1.fit_R.length ∧
    (fit_postprocess huber x_to_eps inv_x_to_eps sample_radii e p).1.fit_ellip_err.length =
      (fit_postprocess huber x_to_eps inv_x_to_eps sample_radii e p).1.fit_R.length ∧
    (fit_postprocess huber x_to_eps inv_x_to_eps sample_radii e p).1.fit_pa_err.length =
      (fit_postprocess huber x_to_eps inv_x_to_eps sample_radii e p).1.fit_R.length ∧
    15 ≤ (fit_postprocess huber x_to_eps inv_x_to_eps sample_radii e p).1.fit_R.length ∧
    (fit_postprocess huber x_to_eps inv_x_to_eps sample_radii e p).1.auxfile_fitlimit =
      (fit_postprocess huber x_to_eps inv_x_to_eps sample_radii e p).1.fit_R.getLast?.getD 0 ∧
    ∀ r ∈ (fit_postprocess huber x_to_eps inv_x_to_eps sample_radii e p).1.fit_R,
      r ≤ (fit_postprocess huber x_to_eps inv_x_to_eps sample_radii e p).1.auxfile_fitlimit := by
  have hcol := collapse_center_len inv_x_to_eps e p
  have hellip : (clamp3 (collapse_center inv_x_to_eps e p).1).length = sample_radii.length := by
    rw [clamp3_length, hcol.1, he]
  refine ⟨?_, ?_, ?_, ?_, ?_, rfl, ?_⟩
  · exact hellip
  · rw [show (fit_postprocess huber x_to_eps inv_x_to_eps sample_radii e p).1.fit_pa =
      (collapse_center inv_x_to_eps e p).2 from rfl]
    rw [hcol.2, hp]
    rfl
  · rw [show (fit_postprocess huber x_to_eps inv_x_to_eps sample_radii e p).1.fit_ellip_err =
      compute_errs (clamp3 (collapse_center inv_x_to_eps e p).1)
        (ellip_smooth huber x_to_eps inv_x_to_eps 5 sample_radii
          (collapse_center inv_x_to_eps e p).1) from rfl]
    rw [compute_errs_length, hellip]
    rfl
  · rw [show (fit_postprocess huber x_to_eps inv_x_to_eps sample_radii e p).1.fit_pa_err =
      compute_errs (collapse_center inv_x_to_eps e p).2
        (pa_smooth huber 5 sample_radii (collapse_center inv_x_to_eps e p).2) from rfl]
    rw [compute_errs_length, hcol.2, hp]
    rfl
  · exact h15
  · exact chain_lt_le_getLast sample_radii hchain

/-- C10: for both fitter variants, in any successful result bundle the five
array entries all share the length of the radius list, that length is at
least 15, and the fit limit entry reports the last and largest sample
radius. -/
theorem C10_result_bundle (IMG : ℕ → ℕ → ℝ) (shape : ℕ × ℕ)
    (background noise psf_fwhm init_ellip init_pa : ℝ) (masked : Bool)
    (extract : (ℕ → ℕ → ℝ) → ℝ → ℝ → ℝ → List ℝ)
    (huber : ℕ → List ℝ → List ℝ → ℝ → ℝ) (x_to_eps inv_x_to_eps : ℝ → ℝ)
    (a1 a2 a3 : Option ℝ) (rnd : RandomStream) (fuel : ℕ)
    (IMGm : ℕ → ℕ → ℝ) (shapem : ℕ × ℕ)
    (backgroundm noisem psfm init_ellipm init_pam : ℝ)
    (extractm : (ℕ → ℕ → ℝ) → ℝ → ℝ → ℝ → List (Option ℝ))
    (huberm : ℕ → List ℝ → List ℝ → ℝ → ℝ) (x_to_epsm inv_x_to_epsm : ℝ → ℝ)
    (b1 b2 b3 : Option ℝ) (rndm : RandomStream) (fuelm : ℕ)
    (hpsf : 0 < psf_fwhm) (hscale : 0 < scale_opt a1)
    (hpsfm : 0 < psfm) (hscalem : 0 < scale_opt b1) :
    Except.map
        (fun out => out.2.fit_ellip.length = out.2.fit_R.length ∧
          out.2.fit_pa.length = out.2.fit_R.length ∧
          out.2.fit_ellip_err.length = out.2.fit_R.length ∧
          out.2.fit_pa_err.length = out.2.fit_R.length ∧
          15 ≤ out.2.fit_R.length ∧
          out.2.auxfile_fitlimit = out.2.fit_R.getLast?.getD 0 ∧
          ∀ r ∈ out.2.fit_R, r ≤ out.2.auxfile_fitlimit)
        (Isophote_Fit_FFT_Robust IMG shape background noise psf_fwhm init_ellip init_pa
          masked extract huber x_to_eps inv_x_to_eps a1 a2 a3 rnd fuel) =
      Except.map (fun _ => True)
        (Isophote_Fit_FFT_Robust IMG shape background noise psf_fwhm init_ellip init_pa
          masked extract huber x_to_eps inv_x_to_eps a1 a2 a3 rnd fuel) ∧
    Except.map
        (fun out => out.2.fit_ellip.length = out.2.fit_R.length ∧
          out.2.fit_pa.length = out.2.fit_R.length ∧
          out.2.fit_ellip_err.length = out.2.fit_R.length ∧
          out.2.fit_pa_err.length = out.2.fit_R.length ∧
          15 ≤ out.2.fit_R.length ∧
          out.2.auxfile_fitlimit = out.2.fit_R.getLast?.getD 0 ∧
          ∀ r ∈ out.2.fit_R, r ≤ out.2.auxfile_fitlimit)
        (Isophote_Fit_FFT_mean IMGm shapem backgroundm noisem psfm init_ellipm init_pam
          extractm huberm x_to_epsm inv_x_to_epsm b1 b2 b3 rndm fuelm) =
      Except.map (fun _ => True)
        (Isophote_Fit_FFT_mean IMGm shapem backgroundm noisem psfm init_ellipm init_pam
          extractm huberm x_to_epsm inv_x_to_epsm b1 b2 b3 rndm fuelm) := by
  constructor
  · simp only [Isophote_Fit_FFT_Robust]
    cases h : init_radii
        (fun r => np_median (extract (fun x y => IMG x y - background) r init_ellip init_pa))
        (fit_limit_robust_opt a2 * noise) (((max shape.1 shape.2 : ℕ) : ℝ) / 2)
        (scale_opt a1) (3 * psf_fwhm / 2) fuel 0 with
    | none => rfl
    | some sample_radii =>
      simp only [Except.map]
      congr 1
      apply eq_true
      obtain ⟨h15, s, _, hs5, hgrow⟩ := init_radii_some_charac
        (fun r => np_median (extract (fun x y => IMG x y - background) r init_ellip init_pa))
        (fit_limit_robust_opt a2 * noise) (((max shape.1 shape.2 : ℕ) : ℝ) / 2)
        (scale_opt a1) (3 * psf_fwhm / 2) fuel 5 0 sample_radii (by omega) h
      have hfac : 1 < 1 + scale_opt a1 / (1 + (s : ℝ)) := by
        have hd : (0 : ℝ) < 1 + (s : ℝ) := by positivity
        have := div_pos hscale hd
        linarith
      have hchain : List.Chain' (· < ·) sample_radii := by
        rw [hgrow]
        exact grow_radii_chain_lt _ _ _ _ hfac fuel _ (by linarith)
      have hl := fit_loop_len (0 : ℝ)
        (fun count E PA i =>
          FFT_Robust_loss (extract (fun x y => IMG x y - background)) masked sample_radii
            E PA i noise (loop_reg_scale (regularize_scale_opt a3) count))
        x_to_eps inv_x_to_eps rnd sample_radii.length 300 0
        { ellip := List.replicate sample_radii.length init_ellip,
          pa := List.replicate sample_radii.length init_pa, nochange := 0 } (by omega)
      exact post_bundle_props huber x_to_eps inv_x_to_eps sample_radii _ _
        (hl.1.trans (List.length_replicate _ _)) (hl.2.trans (List.length_replicate _ _))
        h15 hchain
  · simp only [Isophote_Fit_FFT_mean]
    cases h : init_radii
        (fun r => np_mean ((extractm (fun x y => IMGm x y - backgroundm) r init_ellipm
          init_pam).reduceOption))
        (fit_limit_mean_opt b2 * noisem) (((max shapem.1 shapem.2 : ℕ) : ℝ) / 2)
        (scale_opt b1) (3 * psfm / 2) fuelm 0 with
    | none => rfl
    | some sample_radii =>
      simp only [Except.map]
      congr 1
      apply eq_true
      obtain ⟨h15, s, _, hs5, hgrow⟩ := init_radii_some_charac
        (fun r => np_mean ((extractm (fun x y => IMGm x y - backgroundm) r init_ellipm
          init_pam).reduceOption))
        (fit_limit_mean_opt b2 * noisem) (((max shapem.1 shapem.2 : ℕ) : ℝ) / 2)
        (scale_opt b1) (3 * psfm / 2) fuelm 5 0 sample_radii (by omega) h
      have hfac : 1 < 1 + scale_opt b1 / (1 + (s : ℝ)) := by
        have hd : (0 : ℝ) < 1 + (s : ℝ) := by positivity
        have := div_pos hscalem hd
        linarith
      have hchain : List.Chain' (· < ·) sample_radii := by
        rw [hgrow]
        exact grow_radii_chain_lt _ _ _ _ hfac fuelm _ (by linarith)
      have hl := fit_loop_len (⊤ : EReal)
        (fun count E PA i =>
          FFT_mean_loss (extractm (fun x y => IMGm x y - backgroundm)) sample_radii
            E PA i noisem (loop_reg_scale (regularize_scale_opt b3) count))
        x_to_epsm inv_x_to_epsm rndm sample_radii.length 300 0
        { ellip := List.replicate sample_radii.length init_ellipm,
          pa := List.replicate sample_radii.length init_pam, nochange := 0 } (by omega)
      exact post_bundle_props huberm x_to_epsm inv_x_to_epsm sample_radii _ _
        (hl.1.trans (List.length_replicate _ _)) (hl.2.trans (List.length_replicate _ _))
        h15 hchain

/-- C5, counterexample to the claim as stated: at a concrete input the
smoothed reference trend is not computed from the clamped ellipticity
array; the smoother receives the collapsed, pre clamp values, and with a
sum valued regressor the two readings give different trends. -/
theorem C5_counterexample :
    ¬ ((fit_postprocess (fun _ _ E _ => E.sum) id id [1]
          [0.5, 0.3, 0.4, 0.3, 0.3, 0.3] [0, 0, 0, 0, 0, 0]).2.1 =
        ellip_smooth (fun _ _ E _ => E.sum) id id 5 [1]
          (clamp3 (collapse_center id [0.5, 0.3, 0.4, 0.3, 0.3, 0.3]
            [0, 0, 0, 0, 0, 0]).1)) := by
  have hcol : collapse_center id [(0.5 : ℝ), 0.3, 0.4, 0.3, 0.3, 0.3]
      [(0 : ℝ), 0, 0, 0, 0, 0] =
      ([0.5, 0.3, 0.4, 0.3, 0.3, 0.3], [0, 0, 0, 0, 0, 0]) := by
    rw [collapse_center, show List.range 5 = [0, 1, 2, 3, 4] from rfl]
    simp only [List.foldl_cons, List.foldl_nil]
    norm_num
  have hclamp : clamp3 [(0.5 : ℝ), 0.3, 0.4, 0.3, 0.3, 0.3] =
      [0.3, 0.3, 0.3, 0.3, 0.3, 0.3] := by
    rw [clamp3, set_head_vals]
    norm_num [List.mapIdx_cons]
  show ¬ (ellip_smooth (fun _ _ E _ => E.sum) id id 5 [1]
      (collapse_center id [0.5, 0.3, 0.4, 0.3, 0.3, 0.3] [0, 0, 0, 0, 0, 0]).1 = _)
  rw [hcol, hclamp]
  simp only [ellip_smooth, List.map_cons, List.map_nil, id_eq]
  intro h
  have h0 := List.head_eq_of_cons_eq h
  norm_num at h0

/-- Witness for C3 at a concrete input. -/
theorem C3_witness :
    (∀ j : ℕ, ([0.5, 0.5] : List ℝ).getD j 0 < 1) ∧ ((0 : ℝ) ≤ 1) ∧
    (FFT_Robust_loss (fun _ _ _ => []) false [1, 2] [0.5, 0.5] [0, 0] 0 1 1 =
      spec_robust_loss (fun _ _ _ => []) false [1, 2] [0.5, 0.5] [0, 0] 0 1 1 ∧
     0 ≤ FFT_Robust_loss (fun _ _ _ => []) false [1, 2] [0.5, 0.5] [0, 0] 0 1 1) := by
  have hE : ∀ j : ℕ, ([0.5, 0.5] : List ℝ).getD j 0 < 1 := by
    intro j
    match j with
    | 0 => norm_num
    | 1 => norm_num
    | n + 2 =>
      rw [getD_eq_zero_of_le _ _ (by simp)]
      norm_num
  exact ⟨hE, by norm_num,
    C3_robust_loss (fun _ _ _ => []) false [1, 2] [0.5, 0.5] [0, 0] 0 1 1 hE
      (by norm_num) (by norm_num)⟩

/-- Witness for C4 at a concrete input. -/
theorem C4_witness :
    ((0 : ℝ) < 1) ∧ ((0 : ℝ) < 0.2) ∧
    (init_radii (fun _ => (0 : ℝ)) 1 10 0.2 (3 * 1 / 2) 3 0 = none ↔
      ∀ s : Fin 5,
        (grow_radii (fun _ => (0 : ℝ)) 1 10 (1 + 0.2 / (1 + ((s : ℕ) : ℝ))) 3
          (3 * 1 / 2)).length < 15) :=
  ⟨by norm_num, by norm_num,
    (C4_radius_init (fun _ => (0 : ℝ)) 1 10 0.2 1 3 (by norm_num)
      (by norm_num)).2.2.2.2.2.1⟩

/-- Witness for C6 at a concrete input. -/
theorem C6_witness :
    (4 ≤ ([1, 2, 3, 4] : List ℝ).length) ∧ ((0 : ℕ) < ([1, 2, 3, 4] : List ℝ).length) ∧
    (compute_errs [1, 2, 3, 4] [1, 2, 3, 4]).getD 0 0 =
      spec_err [1, 2, 3, 4] [1, 2, 3, 4] 0 :=
  ⟨by simp, by simp,
    C6_error_windows [1, 2, 3, 4] [1, 2, 3, 4] (by simp) 0 (by simp)⟩

/-- Witness for C10 at a concrete input. -/
theorem C10_witness :
    ((0 : ℝ) < 1) ∧ (0 < scale_opt none) ∧
    Except.map
        (fun out => out.2.fit_ellip.length = out.2.fit_R.length ∧
          out.2.fit_pa.length = out.2.fit_R.length ∧
          out.2.fit_ellip_err.length = out.2.fit_R.length ∧
          out.2.fit_pa_err.length = out.2.fit_R.length ∧
          15 ≤ out.2.fit_R.length ∧
          out.2.auxfile_fitlimit = out.2.fit_R.getLast?.getD 0 ∧
          ∀ r ∈ out.2.fit_R, r ≤ out.2.auxfile_fitlimit)
        (Isophote_Fit_FFT_Robust (fun _ _ => 0) (4, 4) 0 1 1 0 0 false
          (fun _ _ _ _ => []) (fun _ _ _ _ => 0) id id none none none
          ⟨fun _ => [], fun _ _ _ => 0, fun _ _ _ => 0⟩ 0) =
      Except.map (fun _ => True)
        (Isophote_Fit_FFT_Robust (fun _ _ => 0) (4, 4) 0 1 1 0 0 false
          (fun _ _ _ _ => []) (fun _ _ _ _ => 0) id id none none none
          ⟨fun _ => [], fun _ _ _ => 0, fun _ _ _ => 0⟩ 0) :=
  ⟨by norm_num, by norm_num [scale_opt],
    (C10_result_bundle (fun _ _ => 0) (4, 4) 0 1 1 0 0 false
      (fun _ _ _ _ => []) (fun _ _ _ _ => 0) id id none none none
      ⟨fun _ => [], fun _ _ _ => 0, fun _ _ _ => 0⟩ 0
      (fun _ _ => 0) (4, 4) 0 1 1 0 0
      (fun _ _ _ _ => []) (fun _ _ _ _ => 0) id id none none none
      ⟨fun _ => [], fun _ _ _ => 0, fun _ _ _ => 0⟩ 0
      (by norm_num) (by norm_num [scale_opt]) (by norm_num)
      (by norm_num [scale_opt])).1⟩

end AutoProf
